import Mathlib

/-!
Shallow embedding of
`tensorflow/lite/tools/accuracy/ilsvrc/imagenet_model_evaluator.h`.

The repository fragment is a declaration-only header: it declares the
configuration struct `ImagenetModelEvaluator::Params`, the callback
interface `ImagenetModelEvaluator::Observer`, and the evaluator class with
its constructor, `Create` factory, `AddObserver`, `params()` accessor and
`EvaluateModel` entry point.  The corresponding `.cc` implementation is not
part of the fragment, so the run-time behaviour of `Create` and
`EvaluateModel` is modelled from the specification (definitions below whose
doc comment starts with `Modelled from the spec:`); the data model and the
inline member functions are translated directly from the header.

C strings (`char*`) are modelled as `List Char`; C++ `std::string` as
`String`; C `int` as `Int`; `std::vector`/lists as `List`.
-/

namespace ImagenetEval

/-- `TfLiteStatus` from `tensorflow/lite/c/common.h` (the statuses relevant
to this interface; the C enum has further members that never occur here). -/
inductive TfLiteStatus where
  | kTfLiteOk
  | kTfLiteError
  | kTfLiteDelegateError
  | kTfLiteApplicationError
deriving Repr, DecidableEq

/-- `ImagenetModelEvaluator::Params` from the header, with the default
member initializers of the C++ struct (`std::string` default-constructs to
the empty string). -/
structure Params where
  ground_truth_images_path : String := ""
  ground_truth_labels_path : String := ""
  model_output_labels_path : String := ""
  model_file_path : String := ""
  blacklist_file_path : String := ""
  delegate : String := ""
  number_of_images : Int := 0
  num_ranks : Int := 10
  num_interpreter_threads : Int := 1
  allow_fp16 : Bool := false
deriving Repr, DecidableEq

/-- The valid values of `Params::delegate` listed in the header comment:
`'nnapi', 'gpu', 'hexagon', 'xnnpack'`. -/
def validDelegates : List String := ["nnapi", "gpu", "hexagon", "xnnpack"]

/-- The external metric message
`tflite::evaluation::TopkAccuracyEvalMetrics` delivered to observers; its
payload is produced by the out-of-scope evaluation stage, so only its
identity matters here. -/
structure TopkAccuracyEvalMetrics where
  topk_accuracy_percentages : List Nat
deriving Repr, DecidableEq

/-- Observers are polymorphic C++ objects held by non-owning pointer; a
pointer identity is modelled as a natural number. -/
abbrev ObserverId := Nat

/-- The evaluator state declared in the header: the `const Params params_`,
the `const int num_threads_`, and the `std::vector<Observer*> observers_`. -/
structure Evaluator where
  params_ : Params
  num_threads_ : Int
  observers_ : List ObserverId
deriving DecidableEq

/-- The constructor `ImagenetModelEvaluator(const Params&, const int)`:
initializes `params_` and `num_threads_`; `observers_` default-constructs
empty. -/
def Evaluator.mkEval (params : Params) (num_threads : Int) : Evaluator :=
  { params_ := params, num_threads_ := num_threads, observers_ := [] }

/-- `AddObserver`: `observers_.push_back(observer)` (defined inline in the
header). -/
def Evaluator.addObserver (e : Evaluator) (observer : ObserverId) : Evaluator :=
  { e with observers_ := e.observers_ ++ [observer] }

/-- The `params()` accessor: returns `params_` (defined inline in the
header). -/
def Evaluator.params (e : Evaluator) : Params :=
  e.params_

/-- An evaluation event delivered to an `Observer`: `OnEvaluationStart`
carries the shard-id-to-image-count map (modelled as an association list),
`OnSingleImageEvaluationComplete` carries the shard id, the computed top-K
metrics and the image identifier. -/
inductive EvalEvent where
  | start (shard_id_image_count_map : List (Nat × Nat))
  | complete (shard_id : Nat) (metrics : TopkAccuracyEvalMetrics) (image : String)
deriving Repr, DecidableEq

/-- Whether an event is an `OnSingleImageEvaluationComplete` notification
for the image `img`. -/
def isCompleteFor (img : String) : EvalEvent → Bool
  | .complete _ _ i => i == img
  | .start _ => false

/-- Whether an event is an `OnSingleImageEvaluationComplete` notification. -/
def isComplete : EvalEvent → Bool
  | .complete _ _ _ => true
  | .start _ => false

/-- Whether an event is an `OnEvaluationStart` notification. -/
def isStart : EvalEvent → Bool
  | .start _ => true
  | .complete _ _ _ => false

/-- Modelled from the spec: eligible-image discovery of the missing
`EvaluateModel` implementation.  The dataset images carry 1-based indices
(the blacklist file of the ILSVRC2014 devkit lists 1-based image indices);
an image is kept exactly when its index does not appear in the blacklist. -/
def eligibleAux (blacklist : List Nat) : Nat → List String → List String
  | _, [] => []
  | idx, img :: rest =>
    if blacklist.contains idx then eligibleAux blacklist (idx + 1) rest
    else img :: eligibleAux blacklist (idx + 1) rest

/-- Modelled from the spec: the eligible image set, i.e. the dataset images
with the blacklisted indices excluded. -/
def eligibleImages (allImages : List String) (blacklist : List Nat) : List String :=
  eligibleAux blacklist 1 allImages

/-- Modelled from the spec: the `number_of_images` cap of the missing
`EvaluateModel` implementation — `0` means all images, a positive number
means only the specified number of images. -/
def applyCap (number_of_images : Int) (imgs : List String) : List String :=
  if number_of_images = 0 then imgs else imgs.take number_of_images.toNat

/-- Modelled from the spec: the image set an evaluation run evaluates — the
eligible images, capped by `number_of_images`. -/
def evaluatedImages (p : Params) (allImages : List String) (blacklist : List Nat) :
    List String :=
  applyCap p.number_of_images (eligibleImages allImages blacklist)

/-- Modelled from the spec: partitioning of the evaluated images into
`num_interpreter_threads` shards.  `shardSplit n l` produces exactly `n`
contiguous shards whose concatenation (for `n > 0`) is `l`. -/
def shardSplit {α : Type} : Nat → List α → List (List α)
  | 0, _ => []
  | n + 1, l =>
    let k := (l.length + n) / (n + 1)
    l.take k :: shardSplit n (l.drop k)

/-- Modelled from the spec: the per-image completion notifications of the
shards, with shard ids assigned from `i` upward; each image of a shard is
passed to the external evaluation stage `stage` and its completed result is
relayed. -/
def completeEvents (stage : String → TopkAccuracyEvalMetrics) :
    Nat → List (List String) → List EvalEvent
  | _, [] => []
  | i, shard :: rest =>
    shard.map (fun img => .complete i (stage img) img) ++ completeEvents stage (i + 1) rest

/-- Modelled from the spec: the shard-id-to-expected-image-count map passed
to `OnEvaluationStart`, with shard ids assigned from `i` upward. -/
def shardCounts : Nat → List (List String) → List (Nat × Nat)
  | _, [] => []
  | i, shard :: rest => (i, shard.length) :: shardCounts (i + 1) rest

/-- Modelled from the spec: the observable event trace of one
`EvaluateModel` run over dataset `allImages` with blacklist-file content
`blacklist` and external per-shard evaluation stage `stage`: one
`OnEvaluationStart` with the shard-id-to-image-count map, then one
completion notification per evaluated image.  The shards run concurrently,
so the order among completion events is one admissible serialization; the
claims proved below only concern occurrence counts and event payloads,
which are interleaving-independent. -/
def evalTrace (p : Params) (allImages : List String) (blacklist : List Nat)
    (stage : String → TopkAccuracyEvalMetrics) : List EvalEvent :=
  EvalEvent.start (shardCounts 0 (shardSplit p.num_interpreter_threads.toNat
      (evaluatedImages p allImages blacklist)))
    :: completeEvents stage 0 (shardSplit p.num_interpreter_threads.toNat
      (evaluatedImages p allImages blacklist))

/-- Modelled from the spec: `EvaluateModel` — a blocking run-to-completion
call returning a status; the dataset, blacklist-file content and external
evaluation stage are explicit parameters (the implementation reads them
through out-of-scope collaborators).  It is a `const` member: the evaluator
state is not changed.  Failures of the external collaborators are outside
the model, so the modelled run completes with `kTfLiteOk`. -/
def evaluateModel (e : Evaluator) (allImages : List String) (blacklist : List Nat)
    (stage : String → TopkAccuracyEvalMetrics) : TfLiteStatus × List EvalEvent :=
  (.kTfLiteOk, evalTrace e.params_ allImages blacklist stage)

/-- Modelled from the spec: delivery of the evaluation events to the
registered observers — every event is delivered to every registered
observer. -/
def dispatch (observers : List ObserverId) (trace : List EvalEvent) :
    List (ObserverId × EvalEvent) :=
  trace.flatMap (fun ev => observers.map (fun o => (o, ev)))

/-- Modelled from the spec: the command-line flag names recognized by the
`Create` factory, one per `Params` field. -/
def flagNames : List (List Char) :=
  ["ground_truth_images_path".toList, "ground_truth_labels_path".toList,
   "model_output_labels_path".toList, "model_file_path".toList,
   "blacklist_file_path".toList, "delegate".toList, "number_of_images".toList,
   "num_ranks".toList, "num_interpreter_threads".toList, "allow_fp16".toList]

/-- Split a character list at its first `'='`, returning the parts before
and after it. -/
def splitAtEq : List Char → Option (List Char × List Char)
  | [] => none
  | c :: cs =>
    if c = '=' then some ([], cs)
    else (splitAtEq cs).map (fun pr => (c :: pr.1, pr.2))

/-- Modelled from the spec: recognition of one command-line argument.  An
argument matches when it has the form `--name=value` with `name` a
recognized flag name; the result is the name/value pair. -/
def matchFlag : List Char → Option (List Char × List Char)
  | '-' :: '-' :: body =>
    match splitAtEq body with
    | some (n, v) => if flagNames.contains n then some (n, v) else none
    | none => none
  | _ => none

/-- Parse a decimal digit sequence as a natural number (`none` when empty
or containing a non-digit). -/
def digitsToNat : List Char → Option Nat
  | [] => none
  | [c] => if c.isDigit then some (c.toNat - '0'.toNat) else none
  | c :: cs =>
    if c.isDigit then
      (digitsToNat cs).map (fun n => (c.toNat - '0'.toNat) * 10 ^ cs.length + n)
    else none

/-- Parse an optionally-sign-prefixed decimal integer. -/
def charsToInt : List Char → Option Int
  | '-' :: cs => (digitsToNat cs).map (fun n => -(n : Int))
  | cs => (digitsToNat cs).map (fun n => (n : Int))

/-- Parse a boolean flag value. -/
def charsToBool (cs : List Char) : Option Bool :=
  if cs = "true".toList then some true
  else if cs = "false".toList then some false
  else none

/-- Modelled from the spec: applying one recognized flag to the `Params`
under construction.  String-valued flags store their value; numeric flags
must parse as integers; `allow_fp16` must parse as a boolean; the delegate
name must be one of the small enumerated set of valid values.  An invalid
value is a construction failure (`none`). -/
def applyFlag (p : Params) (name value : List Char) : Option Params :=
  if name = "ground_truth_images_path".toList then
    some { p with ground_truth_images_path := String.mk value }
  else if name = "ground_truth_labels_path".toList then
    some { p with ground_truth_labels_path := String.mk value }
  else if name = "model_output_labels_path".toList then
    some { p with model_output_labels_path := String.mk value }
  else if name = "model_file_path".toList then
    some { p with model_file_path := String.mk value }
  else if name = "blacklist_file_path".toList then
    some { p with blacklist_file_path := String.mk value }
  else if name = "delegate".toList then
    if validDelegates.contains (String.mk value) then
      some { p with delegate := String.mk value }
    else none
  else if name = "number_of_images".toList then
    (charsToInt value).map (fun n => { p with number_of_images := n })
  else if name = "num_ranks".toList then
    (charsToInt value).map (fun n => { p with num_ranks := n })
  else if name = "num_interpreter_threads".toList then
    (charsToInt value).map (fun n => { p with num_interpreter_threads := n })
  else if name = "allow_fp16".toList then
    (charsToBool value).map (fun b => { p with allow_fp16 := b })
  else none

/-- Modelled from the spec: the argument-consuming scan of `Create`.  Every
matched argument is applied to the `Params` under construction and removed;
unrecognized arguments are left in place, in order.  A failure while
applying a flag poisons the `Params` (`none`) but the scan still consumes
the remaining recognized flags. -/
def parseArgsAux : Option Params → List (List Char) → Option Params × List (List Char)
  | op, [] => (op, [])
  | op, a :: rest =>
    match matchFlag a with
    | some (n, v) => parseArgsAux (op.bind (fun p => applyFlag p n v)) rest
    | none =>
      let pr := parseArgsAux op rest
      (pr.1, a :: pr.2)

/-- Modelled from the spec: parsing of the process command line into a
`Params`, starting from the default-constructed `Params`. -/
def parseArgs (argv : List (List Char)) : Option Params × List (List Char) :=
  parseArgsAux (some {}) argv

/-- The result of the `Create` factory: the returned `TfLiteStatus`, the
evaluator written through the output parameter (when construction
succeeded), and the updated `argv` (with `argc` its length). -/
structure CreateResult where
  status : TfLiteStatus
  evaluator : Option Evaluator
  argv : List (List Char)
deriving DecidableEq

/-- Modelled from the spec: the `Create` factory method — parses the
command-line arguments into a `Params`, consuming recognized flags; a
construction failure during argument parsing is signaled through the
returned status.  There is no exception-based control flow: the function is
total and every outcome is a `CreateResult`. -/
def create (argv : List (List Char)) (num_threads : Int) : CreateResult :=
  match parseArgs argv with
  | (some p, rem) =>
    { status := .kTfLiteOk, evaluator := some (Evaluator.mkEval p num_threads), argv := rem }
  | (none, rem) =>
    { status := .kTfLiteError, evaluator := none, argv := rem }

/-- Whether `Create` recognizes (and hence consumes) an argument. -/
def recognized (a : List Char) : Bool :=
  (matchFlag a).isSome

/-- A member-function call on an evaluator object: `AddObserver`, or
`EvaluateModel` (whose inputs are irrelevant to the state, since the method
is declared `const`). -/
inductive EvalOp where
  | addObserver (observer : ObserverId)
  | evaluateModel (allImages : List String) (blacklist : List Nat)
      (stage : String → TopkAccuracyEvalMetrics)

/-- The state effect of one member-function call: `AddObserver` is
`observers_.push_back(observer)`; `EvaluateModel` is declared `const` in the
header (and no member is `mutable`), so it leaves the state unchanged. -/
def applyOp (e : Evaluator) : EvalOp → Evaluator
  | .addObserver o => e.addObserver o
  | .evaluateModel _ _ _ => e

/-- The state after a sequence of member-function calls. -/
def runOps (e : Evaluator) (ops : List EvalOp) : Evaluator :=
  ops.foldl applyOp e

/-- The observers added by a sequence of member-function calls, in call
order. -/
def addedObservers (ops : List EvalOp) : List ObserverId :=
  ops.filterMap (fun op =>
    match op with
    | .addObserver o => some o
    | .evaluateModel _ _ _ => none)

/-! Helper lemmas. -/

/-- Running a sequence of member-function calls only appends the added
observers; the other fields are untouched. -/
theorem runOps_eq (ops : List EvalOp) (e : Evaluator) :
    runOps e ops = { e with observers_ := e.observers_ ++ addedObservers ops } := by
  induction ops generalizing e with
  | nil => simp [runOps, addedObservers]
  | cons op ops ih =>
    cases op with
    | addObserver o =>
      simp only [runOps, List.foldl_cons, applyOp] at *
      rw [ih]
      simp [addedObservers, Evaluator.addObserver, List.filterMap_cons]
    | evaluateModel all bl stage =>
      simp only [runOps, List.foldl_cons, applyOp] at *
      rw [ih]
      simp [addedObservers, List.filterMap_cons]

/-- The remaining arguments of the `Create` scan are exactly the
unrecognized arguments, in order. -/
theorem parseArgsAux_snd (args : List (List Char)) (op : Option Params) :
    (parseArgsAux op args).2 = args.filter (fun a => !recognized a) := by
  induction args generalizing op with
  | nil => simp [parseArgsAux]
  | cons a rest ih =>
    cases h : matchFlag a with
    | some pr =>
      simp [parseArgsAux, h, recognized, ih]
    | none =>
      simp [parseArgsAux, h, recognized, ih]

/-- A list's length splits into the arguments a predicate keeps and those
it drops. -/
theorem length_filter_not_add_countP {α : Type} (p : α → Bool) (l : List α) :
    (l.filter (fun a => !p a)).length + l.countP p = l.length := by
  induction l with
  | nil => simp
  | cons a l ih =>
    cases h : p a <;>
      simp [List.filter_cons, List.countP_cons, h, ← ih] <;> omega

/-- The `argv` of a `CreateResult` is the remainder of the parse. -/
theorem create_argv (argv : List (List Char)) (num_threads : Int) :
    (create argv num_threads).argv = (parseArgs argv).2 := by
  unfold create
  rcases h : parseArgs argv with ⟨op, rem⟩
  cases op <;> simp

/-- The status/evaluator correspondence of `create`. -/
theorem create_status (argv : List (List Char)) (num_threads : Int) :
    ((create argv num_threads).status = .kTfLiteOk ↔
      ((create argv num_threads).evaluator).isSome = true)
    ∧ ((parseArgs argv).1 = none → (create argv num_threads).status = .kTfLiteError) := by
  unfold create
  rcases h : parseArgs argv with ⟨op, rem⟩
  cases op <;> simp

/-! Claim theorems: construction, state and argument parsing. -/

/-- C10: a default-constructed `Params` has `number_of_images = 0`,
`num_ranks = 10`, `num_interpreter_threads = 1`, `allow_fp16 = false`, and
all path and delegate strings empty. -/
theorem C10_default_params :
    ({} : Params).number_of_images = 0
    ∧ ({} : Params).num_ranks = 10
    ∧ ({} : Params).num_interpreter_threads = 1
    ∧ ({} : Params).allow_fp16 = false
    ∧ ({} : Params).ground_truth_images_path = ""
    ∧ ({} : Params).ground_truth_labels_path = ""
    ∧ ({} : Params).model_output_labels_path = ""
    ∧ ({} : Params).model_file_path = ""
    ∧ ({} : Params).blacklist_file_path = ""
    ∧ ({} : Params).delegate = "" := by
  exact ⟨rfl, rfl, rfl, rfl, rfl, rfl, rfl, rfl, rfl, rfl⟩

/-- C5: the stored `Params` is immutable for the evaluator's lifetime —
after any sequence of `AddObserver` and `EvaluateModel` calls, `params()`
still returns the `Params` the evaluator was constructed with. -/
theorem C5_params_immutable (p : Params) (num_threads : Int) (ops : List EvalOp) :
    (runOps (Evaluator.mkEval p num_threads) ops).params = p := by
  rw [runOps_eq]
  rfl

/-- C6: the observer list is the only mutable state — `AddObserver` appends
exactly the given observer to the end of the list and changes no other
field, `EvaluateModel` changes no field, and after any call sequence the
observer list holds exactly the added observers in registration order. -/
theorem C6_observer_list_only_state (e : Evaluator) (o : ObserverId)
    (allImages : List String) (blacklist : List Nat)
    (stage : String → TopkAccuracyEvalMetrics) (ops : List EvalOp) :
    applyOp e (.addObserver o) = { e with observers_ := e.observers_ ++ [o] }
    ∧ applyOp e (.evaluateModel allImages blacklist stage) = e
    ∧ (runOps e ops).observers_ = e.observers_ ++ addedObservers ops
    ∧ (runOps e ops).params_ = e.params_
    ∧ (runOps e ops).num_threads_ = e.num_threads_ := by
  refine ⟨rfl, rfl, ?_, ?_, ?_⟩ <;> rw [runOps_eq]

/-- C7: `Create` consumes the recognized flags — every matched argument is
removed from `argv` while unrecognized arguments are left in place in
order, and `argc` (the length of the updated `argv`) shrinks by the number
of consumed arguments. -/
theorem C7_create_consumes_flags (argv : List (List Char)) (num_threads : Int) :
    (create argv num_threads).argv = argv.filter (fun a => !recognized a)
    ∧ (create argv num_threads).argv.length + argv.countP recognized = argv.length := by
  have h : (create argv num_threads).argv = argv.filter (fun a => !recognized a) := by
    rw [create_argv]
    exact parseArgsAux_snd argv (some {})
  exact ⟨h, by rw [h]; exact length_filter_not_add_countP recognized argv⟩

/-- C4: all failures of `EvaluateModel` and `Create` are reported through
the returned `TfLiteStatus` — the functions are total (no exception-based
control flow), `Create` yields `kTfLiteOk` exactly when it produces an
evaluator, a construction failure during argument parsing yields
`kTfLiteError`, and `EvaluateModel` reports its outcome as the returned
status value. -/
theorem C4_status_not_exceptions (argv : List (List Char)) (num_threads : Int)
    (e : Evaluator) (allImages : List String) (blacklist : List Nat)
    (stage : String → TopkAccuracyEvalMetrics) :
    ((create argv num_threads).status = .kTfLiteOk ↔
      ((create argv num_threads).evaluator).isSome = true)
    ∧ ((parseArgs argv).1 = none → (create argv num_threads).status = .kTfLiteError)
    ∧ (evaluateModel e allImages blacklist stage).1 = .kTfLiteOk := by
  exact ⟨(create_status argv num_threads).1, (create_status argv num_threads).2, rfl⟩

/-- Witness for C4 at a concrete failing command line: an invalid delegate
value is a construction failure signaled through the returned status. -/
theorem C4_witness :
    (create ["--delegate=foo".toList] 1).status = .kTfLiteError :=
  (C4_status_not_exceptions ["--delegate=foo".toList] 1 (Evaluator.mkEval {} 1) [] []
    (fun _ => ⟨[]⟩)).2.1 (by decide)

/-! Helper lemmas about sharding and the event trace. -/

/-- For a positive shard count the shards concatenate back to the split
list. -/
theorem shardSplit_flatten {α : Type} (n : Nat) (l : List α) :
    (shardSplit (n + 1) l).flatten = l := by
  induction n generalizing l with
  | zero =>
    simp [shardSplit]
  | succ n ih =>
    have hunf : shardSplit (n + 1 + 1) l
        = l.take ((l.length + (n + 1)) / (n + 1 + 1))
          :: shardSplit (n + 1) (l.drop ((l.length + (n + 1)) / (n + 1 + 1))) := rfl
    rw [hunf, List.flatten_cons, ih, List.take_append_drop]

/-- `shardSplit n` always produces exactly `n` shards. -/
theorem shardSplit_length {α : Type} (n : Nat) (l : List α) :
    (shardSplit n l).length = n := by
  induction n generalizing l with
  | zero => rfl
  | succ n ih => simp [shardSplit, ih]

/-- Completion notifications for `img` are as numerous as `img`'s
occurrences among the shards' images. -/
theorem completeEvents_countP_image (stage : String → TopkAccuracyEvalMetrics)
    (img : String) (shards : List (List String)) (i : Nat) :
    (completeEvents stage i shards).countP (isCompleteFor img)
      = shards.flatten.countP (fun x => x == img) := by
  induction shards generalizing i with
  | nil => rfl
  | cons shard rest ih =>
    simp [completeEvents, List.countP_append, List.countP_map, ih,
      Function.comp_def, isCompleteFor]

/-- Every completion notification carries the metrics the external
evaluation stage computed for its image. -/
theorem completeEvents_metrics (stage : String → TopkAccuracyEvalMetrics)
    (shards : List (List String)) (i j : Nat) (m : TopkAccuracyEvalMetrics)
    (img : String) (h : EvalEvent.complete j m img ∈ completeEvents stage i shards) :
    m = stage img := by
  induction shards generalizing i with
  | nil => cases h
  | cons shard rest ih =>
    simp only [completeEvents, List.mem_append, List.mem_map] at h
    rcases h with ⟨x, _, hx⟩ | h
    · cases hx
      rfl
    · exact ih _ h

/-- A completion notification for `img` exists exactly when `img` is among
the shards' images. -/
theorem completeEvents_mem_iff (stage : String → TopkAccuracyEvalMetrics)
    (shards : List (List String)) (i : Nat) (img : String) :
    (∃ j m, EvalEvent.complete j m img ∈ completeEvents stage i shards)
      ↔ img ∈ shards.flatten := by
  induction shards generalizing i with
  | nil => simp [completeEvents]
  | cons shard rest ih =>
    simp only [completeEvents, List.mem_append, List.mem_map, List.flatten_cons]
    constructor
    · rintro ⟨j, m, ⟨x, hx, hev⟩ | h⟩
      · cases hev
        exact Or.inl hx
      · exact Or.inr ((ih (i + 1)).mp ⟨j, m, h⟩)
    · rintro (hx | hx)
      · exact ⟨i, stage img, Or.inl ⟨img, hx, rfl⟩⟩
      · rcases (ih (i + 1)).mpr hx with ⟨j, m, h⟩
        exact ⟨j, m, Or.inr h⟩

/-- The per-shard notifications contain no `OnEvaluationStart` event. -/
theorem completeEvents_countP_start (stage : String → TopkAccuracyEvalMetrics)
    (shards : List (List String)) (i : Nat) :
    (completeEvents stage i shards).countP isStart = 0 := by
  induction shards generalizing i with
  | nil => rfl
  | cons shard rest ih =>
    simp [completeEvents, List.countP_append, List.countP_map,
      Function.comp_def, isStart, ih]

/-- There are exactly as many completion notifications as shard images. -/
theorem completeEvents_countP_complete (stage : String → TopkAccuracyEvalMetrics)
    (shards : List (List String)) (i : Nat) :
    (completeEvents stage i shards).countP isComplete = shards.flatten.length := by
  induction shards generalizing i with
  | nil => rfl
  | cons shard rest ih =>
    simp [completeEvents, List.countP_append, List.countP_map,
      Function.comp_def, isComplete, ih, List.countP_true]

/-- The shard-count map associates each shard id with its length. -/
theorem shardCounts_get (shards : List (List String)) (k i : Nat) :
    (shardCounts k shards).get? i = (shards.get? i).map (fun s => (k + i, s.length)) := by
  induction shards generalizing k i with
  | nil => simp [shardCounts]
  | cons shard rest ih =>
    cases i with
    | zero => simp [shardCounts]
    | succ i =>
      simp only [shardCounts, List.get?_cons_succ, ih (k + 1) i]
      cases rest.get? i with
      | none => rfl
      | some s => simp; omega

/-- The shard-count map has one entry per shard. -/
theorem shardCounts_length (shards : List (List String)) (k : Nat) :
    (shardCounts k shards).length = shards.length := by
  induction shards generalizing k with
  | nil => rfl
  | cons shard rest ih => simp [shardCounts, ih]

/-- Bridge from `List.contains` to membership. -/
theorem contains_true {bl : List Nat} {i : Nat} (h : bl.contains i = true) : i ∈ bl :=
  List.elem_iff.mp h

/-- Bridge from a failed `List.contains` to non-membership. -/
theorem contains_false {bl : List Nat} {i : Nat} (h : bl.contains i = false) :
    i ∉ bl := by
  intro hm
  have h2 : bl.contains i = true := List.elem_iff.mpr hm
  rw [h2] at h
  cases h

/-- The eligible images are a sublist of the dataset. -/
theorem eligibleAux_sublist (blacklist : List Nat) (l : List String) (i : Nat) :
    (eligibleAux blacklist i l).Sublist l := by
  induction l generalizing i with
  | nil => simp [eligibleAux]
  | cons img rest ih =>
    cases h : blacklist.contains i with
    | true =>
      have hunf : eligibleAux blacklist i (img :: rest)
          = eligibleAux blacklist (i + 1) rest := by
        simp [eligibleAux, contains_true h]
      rw [hunf]
      exact (ih (i + 1)).cons img
    | false =>
      have hunf : eligibleAux blacklist i (img :: rest)
          = img :: eligibleAux blacklist (i + 1) rest := by
        simp [eligibleAux, contains_false h]
      rw [hunf]
      exact (ih (i + 1)).cons₂ img

/-- The evaluated images are a sublist of the dataset. -/
theorem evaluatedImages_sublist (p : Params) (allImages : List String)
    (blacklist : List Nat) :
    (evaluatedImages p allImages blacklist).Sublist allImages := by
  unfold evaluatedImages applyCap
  have h := eligibleAux_sublist blacklist allImages 1
  split
  · exact h
  · exact (List.take_sublist _ _).trans h

/-- In a duplicate-free dataset, an image whose index is blacklisted is not
among the eligible images. -/
theorem eligibleAux_not_mem (blacklist : List Nat) (l : List String) (i j : Nat)
    (img : String) (hnodup : l.Nodup) (hget : l.get? j = some img)
    (hbl : (i + j) ∈ blacklist) : ¬ img ∈ eligibleAux blacklist i l := by
  induction l generalizing i j with
  | nil => cases hget
  | cons c rest ih =>
    have hnr : rest.Nodup := hnodup.of_cons
    cases j with
    | zero =>
      have hcimg : c = img := by
        have h0 : (some c : Option String) = some img := hget
        exact Option.some.inj h0
      subst hcimg
      have hc : i ∈ blacklist := by simpa using hbl
      have hunf : eligibleAux blacklist i (c :: rest)
          = eligibleAux blacklist (i + 1) rest := by
        simp [eligibleAux, hc]
      rw [hunf]
      intro hmem
      exact (List.nodup_cons.mp hnodup).1
        (((eligibleAux_sublist blacklist rest (i + 1))).mem hmem)
    | succ j =>
      have hbl' : ((i + 1) + j) ∈ blacklist := by
        have : (i + 1) + j = i + (j + 1) := by omega
        rwa [this]
      have hget' : rest.get? j = some img := hget
      have hrest := ih (i + 1) j hnr hget' hbl'
      have hmemrest : img ∈ rest := by
        rcases List.get?_eq_some.mp hget' with ⟨hlt, hgeteq⟩
        exact hgeteq ▸ List.get_mem rest j hlt
      cases h : blacklist.contains i with
      | true =>
        have hunf : eligibleAux blacklist i (c :: rest)
            = eligibleAux blacklist (i + 1) rest := by
          simp [eligibleAux, contains_true h]
        rw [hunf]
        exact hrest
      | false =>
        have hunf : eligibleAux blacklist i (c :: rest)
            = c :: eligibleAux blacklist (i + 1) rest := by
          simp [eligibleAux, contains_false h]
        rw [hunf]
        intro hmem
        rcases List.mem_cons.mp hmem with hceq | hmem'
        · exact (List.nodup_cons.mp hnodup).1 (hceq ▸ hmemrest)
        · exact hrest hmem'

/-- Dispatch counting: the notifications an observer receives matching a
predicate are the matching trace events, times the observer's multiplicity
in the registration list. -/
theorem dispatch_countP (observers : List ObserverId) (trace : List EvalEvent)
    (q : EvalEvent → Bool) (o : ObserverId) :
    (dispatch observers trace).countP (fun pr => pr.1 == o && q pr.2)
      = trace.countP q * observers.countP (fun x => x == o) := by
  induction trace with
  | nil => simp [dispatch]
  | cons ev tr ih =>
    simp only [dispatch, List.flatMap_cons, List.countP_append, List.countP_map,
      Function.comp_def] at *
    rw [ih, List.countP_cons]
    cases hq : q ev with
    | true => simp [hq, Nat.succ_mul, Nat.add_comm]
    | false => simp [hq]

/-- Counting over a cons whose head fails the predicate. -/
theorem countP_cons_false {α : Type} (q : α → Bool) (a : α) (l : List α)
    (h : q a = false) : List.countP q (a :: l) = List.countP q l := by
  rw [List.countP_cons, h]
  simp

/-- Counting over a cons whose head satisfies the predicate. -/
theorem countP_cons_true {α : Type} (q : α → Bool) (a : α) (l : List α)
    (h : q a = true) : List.countP q (a :: l) = List.countP q l + 1 := by
  rw [List.countP_cons, h]
  simp

/-- For a positive thread count the shards concatenate back to the
evaluated images. -/
theorem shards_flatten (p : Params) (allImages : List String) (blacklist : List Nat)
    (hthreads : 0 < p.num_interpreter_threads) :
    (shardSplit p.num_interpreter_threads.toNat
        (evaluatedImages p allImages blacklist)).flatten
      = evaluatedImages p allImages blacklist := by
  have h1 : 0 < p.num_interpreter_threads.toNat := by omega
  rcases Nat.exists_eq_add_of_lt h1 with ⟨n, hn⟩
  rw [show p.num_interpreter_threads.toNat = n + 1 from by omega]
  exact shardSplit_flatten n _

/-! Claim theorems: the evaluation run. -/

/-- C1: each registered observer is notified exactly once per completed
image via `OnSingleImageEvaluationComplete`, and the notification carries
the shard id, the metrics computed by the evaluation stage for that image,
and the image identifier. -/
theorem C1_observer_notified_once (p : Params) (allImages : List String)
    (blacklist : List Nat) (stage : String → TopkAccuracyEvalMetrics)
    (observers : List ObserverId) (o : ObserverId) (img : String)
    (hthreads : 0 < p.num_interpreter_threads)
    (hnodup : allImages.Nodup)
    (hobs : observers.countP (fun x => x == o) = 1)
    (himg : img ∈ evaluatedImages p allImages blacklist) :
    (dispatch observers (evalTrace p allImages blacklist stage)).countP
        (fun pr => pr.1 == o && isCompleteFor img pr.2) = 1
    ∧ ∀ j m, EvalEvent.complete j m img ∈ evalTrace p allImages blacklist stage →
        m = stage img := by
  have hcount : (evalTrace p allImages blacklist stage).countP (isCompleteFor img) = 1 := by
    unfold evalTrace
    rw [countP_cons_false _ _ _ rfl]
    rw [completeEvents_countP_image, shards_flatten p allImages blacklist hthreads]
    have hnodup2 : (evaluatedImages p allImages blacklist).Nodup :=
      (evaluatedImages_sublist p allImages blacklist).nodup hnodup
    have h1 : (evaluatedImages p allImages blacklist).count img = 1 :=
      List.count_eq_one_of_mem hnodup2 himg
    simpa [List.count] using h1
  refine ⟨?_, ?_⟩
  · rw [dispatch_countP, hcount, hobs]
  · intro j m hmem
    unfold evalTrace at hmem
    rcases List.mem_cons.mp hmem with hstart | hcomp
    · cases hstart
    · exact completeEvents_metrics stage _ 0 j m img hcomp

/-- Witness for C1 at a concrete run: one image, one observer, one
notification. -/
theorem C1_witness :
    (dispatch [5] (evalTrace {} ["a"] [] (fun _ => ⟨[]⟩))).countP
        (fun pr => pr.1 == 5 && isCompleteFor "a" pr.2) = 1 :=
  (C1_observer_notified_once {} ["a"] [] (fun _ => ⟨[]⟩) [5] 5 "a" (by decide)
    (by decide) (by decide) (by decide)).1

/-- C2: the evaluation run (with no image cap) evaluates exactly the
eligible image set — an image receives a completion notification iff it is
eligible, an image whose index appears in the blacklist is excluded, and
every completion notification relays the result the external per-shard
evaluation stage computed for its image. -/
theorem C2_eligible_image_set (p : Params) (allImages : List String)
    (blacklist : List Nat) (stage : String → TopkAccuracyEvalMetrics) (img : String)
    (hthreads : 0 < p.num_interpreter_threads)
    (hnodup : allImages.Nodup)
    (hcap : p.number_of_images = 0) :
    ((∃ j m, EvalEvent.complete j m img ∈ evalTrace p allImages blacklist stage)
        ↔ img ∈ eligibleImages allImages blacklist)
    ∧ (∀ j, allImages.get? j = some img → (j + 1) ∈ blacklist →
        ¬ img ∈ eligibleImages allImages blacklist)
    ∧ (∀ j m img2, EvalEvent.complete j m img2 ∈ evalTrace p allImages blacklist stage →
        m = stage img2) := by
  have heval : evaluatedImages p allImages blacklist = eligibleImages allImages blacklist := by
    unfold evaluatedImages applyCap
    rw [if_pos hcap]
  refine ⟨?_, ?_, ?_⟩
  · constructor
    · rintro ⟨j, m, hmem⟩
      unfold evalTrace at hmem
      rcases List.mem_cons.mp hmem with hstart | hcomp
      · cases hstart
      · have := (completeEvents_mem_iff stage _ 0 img).mp ⟨j, m, hcomp⟩
        rwa [shards_flatten p allImages blacklist hthreads, heval] at this
    · intro hmem
      have hmem2 : img ∈ (shardSplit p.num_interpreter_threads.toNat
          (evaluatedImages p allImages blacklist)).flatten := by
        rwa [shards_flatten p allImages blacklist hthreads, heval]
      rcases (completeEvents_mem_iff stage _ 0 img).mpr hmem2 with ⟨j, m, hcomp⟩
      exact ⟨j, m, List.mem_cons_of_mem _ hcomp⟩
  · intro j hget hbl
    exact eligibleAux_not_mem blacklist allImages 1 j img hnodup hget
      (by rw [Nat.add_comm]; exact hbl)
  · intro j m img2 hmem
    unfold evalTrace at hmem
    rcases List.mem_cons.mp hmem with hstart | hcomp
    · cases hstart
    · exact completeEvents_metrics stage _ 0 j m img2 hcomp

/-- Witness for C2 at a concrete run: with blacklist `[2]` over a
two-image dataset, the second image is excluded. -/
theorem C2_witness :
    ¬ "b" ∈ eligibleImages ["a", "b"] [2] :=
  (C2_eligible_image_set {} ["a", "b"] [2] (fun _ => ⟨[]⟩) "b" (by decide)
    (by decide) rfl).2.1 1 (by decide) (by decide)

/-- C3: the work is split into exactly `num_interpreter_threads` shards,
and the trace begins with a single `OnEvaluationStart` event carrying the
map from each shard id to that shard's expected image count. -/
theorem C3_sharding_and_start (p : Params) (allImages : List String)
    (blacklist : List Nat) (stage : String → TopkAccuracyEvalMetrics) :
    (shardSplit p.num_interpreter_threads.toNat
        (evaluatedImages p allImages blacklist)).length
      = p.num_interpreter_threads.toNat
    ∧ (evalTrace p allImages blacklist stage).countP isStart = 1
    ∧ (evalTrace p allImages blacklist stage).head?
      = some (.start (shardCounts 0 (shardSplit p.num_interpreter_threads.toNat
          (evaluatedImages p allImages blacklist))))
    ∧ (shardCounts 0 (shardSplit p.num_interpreter_threads.toNat
        (evaluatedImages p allImages blacklist))).length
      = p.num_interpreter_threads.toNat
    ∧ ∀ i, (shardCounts 0 (shardSplit p.num_interpreter_threads.toNat
        (evaluatedImages p allImages blacklist))).get? i
      = ((shardSplit p.num_interpreter_threads.toNat
          (evaluatedImages p allImages blacklist)).get? i).map (fun s => (i, s.length)) := by
  refine ⟨shardSplit_length _ _, ?_, rfl, ?_, ?_⟩
  · unfold evalTrace
    rw [countP_cons_true _ _ _ rfl, completeEvents_countP_start]
  · rw [shardCounts_length, shardSplit_length]
  · intro i
    have h := shardCounts_get (shardSplit p.num_interpreter_threads.toNat
      (evaluatedImages p allImages blacklist)) 0 i
    simpa using h

/-- C9: `number_of_images` caps the evaluated images — `0` evaluates every
eligible image, a positive `n` evaluates at most `n`, and the completion
notifications are exactly one per evaluated image. -/
theorem C9_image_cap (p : Params) (allImages : List String) (blacklist : List Nat)
    (stage : String → TopkAccuracyEvalMetrics)
    (hthreads : 0 < p.num_interpreter_threads) :
    (p.number_of_images = 0 →
      evaluatedImages p allImages blacklist = eligibleImages allImages blacklist)
    ∧ (0 < p.number_of_images →
      (evalTrace p allImages blacklist stage).countP isComplete ≤ p.number_of_images.toNat)
    ∧ (evalTrace p allImages blacklist stage).countP isComplete
      = (evaluatedImages p allImages blacklist).length := by
  have hlen : (evalTrace p allImages blacklist stage).countP isComplete
      = (evaluatedImages p allImages blacklist).length := by
    unfold evalTrace
    rw [countP_cons_false _ _ _ rfl, completeEvents_countP_complete,
      shards_flatten p allImages blacklist hthreads]
  refine ⟨?_, ?_, hlen⟩
  · intro hcap
    unfold evaluatedImages applyCap
    rw [if_pos hcap]
  · intro hpos
    rw [hlen]
    unfold evaluatedImages applyCap
    rw [if_neg (by omega)]
    calc (List.take p.number_of_images.toNat (eligibleImages allImages blacklist)).length
        = min p.number_of_images.toNat (eligibleImages allImages blacklist).length :=
          List.length_take _ _
      _ ≤ p.number_of_images.toNat := Nat.min_le_left _ _

/-- Witness for C9 at a concrete run: a cap of `1` on a two-image dataset
evaluates one image. -/
theorem C9_witness :
    (evalTrace { number_of_images := 1 } ["a", "b"] [] (fun _ => ⟨[]⟩)).countP isComplete
      ≤ (1 : Int).toNat :=
  (C9_image_cap { number_of_images := 1 } ["a", "b"] [] (fun _ => ⟨[]⟩)
    (by decide)).2.1 (by decide)

/-! Claim C8: the delegate name. -/

/-- The delegate field is unset (the default — no delegate requested) or
one of the valid values of the header comment. -/
def delegateOk (p : Params) : Prop :=
  p.delegate = "" ∨ p.delegate ∈ validDelegates

/-- Bridge from `List.contains` on strings to membership. -/
theorem containsStr_true {l : List String} {s : String} (h : l.contains s = true) :
    s ∈ l :=
  List.elem_iff.mp h

set_option maxHeartbeats 1600000 in
/-- Applying one recognized flag preserves `delegateOk`: the only flag that
writes the delegate field validates it against the enumerated set. -/
theorem applyFlag_delegateOk (p q : Params) (name value : List Char)
    (hp : delegateOk p) (h : applyFlag p name value = some q) : delegateOk q := by
  unfold applyFlag at h
  repeat' split at h
  all_goals try (cases h)
  all_goals try exact hp
  all_goals try exact Or.inr (containsStr_true (by assumption))
  all_goals rcases Option.map_eq_some'.mp h with ⟨n, hn, hq⟩
  all_goals cases hq
  all_goals exact hp

/-- The argument scan preserves `delegateOk`. -/
theorem parseArgsAux_delegateOk (args : List (List Char)) (op : Option Params)
    (p : Params) (hop : ∀ q, op = some q → delegateOk q)
    (h : (parseArgsAux op args).1 = some p) : delegateOk p := by
  induction args generalizing op with
  | nil =>
    exact hop p h
  | cons a rest ih =>
    rcases hm : matchFlag a with _ | ⟨n, v⟩
    · rw [parseArgsAux, hm] at h
      exact ih op hop h
    · rw [parseArgsAux, hm] at h
      refine ih (op.bind (fun q => applyFlag q n v)) ?_ h
      intro q hq
      rcases Option.bind_eq_some.mp hq with ⟨p0, hp0, happ⟩
      exact applyFlag_delegateOk p0 q n v (hop p0 hp0) happ

/-- Counterexample to C8 as stated: the default-constructed `Params` — the
very `Params` of the header's usage example — is used in an evaluation run
that completes with `kTfLiteOk`, yet its delegate name (the empty string)
is not one of `'nnapi', 'gpu', 'hexagon', 'xnnpack'`. -/
theorem C8_counterexample :
    (evaluateModel (Evaluator.mkEval {} 1) ["img1"] [] (fun _ => ⟨[]⟩)).1
        = TfLiteStatus.kTfLiteOk
    ∧ ¬ ({} : Params).delegate ∈ validDelegates := by
  exact ⟨rfl, by decide⟩

/-- C8 amended: the delegate name of every `Params` produced by `Create` is
either unset (the empty default — no delegate requested) or one of the
enumerated valid values `'nnapi', 'gpu', 'hexagon', 'xnnpack'`. -/
theorem C8_delegate_enumerated (argv : List (List Char)) (num_threads : Int)
    (e : Evaluator) (h : (create argv num_threads).evaluator = some e) :
    e.params_.delegate = "" ∨ e.params_.delegate ∈ validDelegates := by
  unfold create at h
  rcases hp : parseArgs argv with ⟨op, rem⟩
  rw [hp] at h
  cases op with
  | none => simp at h
  | some p =>
    simp only [Option.some.injEq] at h
    have hdel : delegateOk p := by
      refine parseArgsAux_delegateOk argv (some {}) p ?_ ?_
      · intro q hq
        cases hq
        exact Or.inl rfl
      · rw [show parseArgsAux (some {}) argv = parseArgs argv from rfl, hp]
    rw [← h]
    exact hdel

/-- Witness for the amended C8 at a concrete command line requesting the
`gpu` delegate. -/
theorem C8_witness :
    (Evaluator.mkEval { delegate := "gpu" } 1).params_.delegate = ""
    ∨ (Evaluator.mkEval { delegate := "gpu" } 1).params_.delegate ∈ validDelegates :=
  C8_delegate_enumerated ["--delegate=gpu".toList] 1
    (Evaluator.mkEval { delegate := "gpu" } 1) (by decide)

end ImagenetEval
